import Mathlib

/-!
Shallow embedding of `matchzoo/data_generator/data_generator.py`.

The module is a minibatch generation layer: `DataGenerator` partitions the
index range `[0, N)` of a data pack into batches of `batch_size` indices
(reshuffled on epoch end), resolves batch requests (single index or slice)
to index lists, and hands the index list to a materializer
(`_get_batch_of_transformed_samples`), of which the file offers several
variants (plain, unit-transform, function-transform, upsample, fusion).

Modelling conventions:
* Machine integers are `Nat`/`Int`; `math.ceil(a / b)` on integer
  arguments is the exact rational ceiling, embedded as `-((-a).fdiv b)`
  (Python floor division identity); `lenDataGenerator` below also proves
  nothing about floats since CPython only loses precision far beyond any
  realistic data pack size.
* `np.random.permutation(n)` is modelled by an explicit `perm : List Nat`
  parameter; theorems about shuffling assume `perm.Perm (List.range n)`.
* Fallible Python operations return `Except PyErr`; `ZeroDivisionError`
  arises from `n / 0` in `__len__`, `ValueError` from the `len()` builtin
  when `__len__` returns a negative number, `IndexError` from list
  indexing with an integer out of range.
* The opaque collaborators (data-pack slicing, `unit.transform`,
  `upsample`, `unpack`) are universally quantified function parameters,
  matching the spec's decision to treat them as black boxes.
* Mutation is modelled by state passing: every method that could assign
  to `self` returns the new object state alongside its result.
-/

namespace MatchZoo

/-- The Python exceptions this module can surface. -/
inductive PyErr where
  | indexError
  | zeroDivisionError
  | valueError
deriving DecidableEq, Repr

/-- Ceiling division on `Nat`: `ceilDiv n bs = ⌈n / bs⌉` for `bs ≥ 1`. -/
def ceilDiv (n bs : Nat) : Nat := (n + bs - 1) / bs

/-- `math.ceil(n / bs)` for an integer-valued `n / bs` with `bs ≠ 0`:
the exact ceiling of the quotient, via the floor-division identity
`ceil(a/b) = -((-a) // b)`. -/
def mathCeilDiv (n : Nat) (bs : Int) : Int := -(Int.fdiv (-(n : Int)) bs)

/-- `DataGenerator.__len__`: `math.ceil(len(self._data_pack) / self._batch_size)`.
Dividing by `batch_size = 0` raises `ZeroDivisionError`. -/
def lenDataGenerator (n : Nat) (bs : Int) : Except PyErr Int :=
  if bs = 0 then .error .zeroDivisionError else .ok (mathCeilDiv n bs)

/-- The `len()` builtin applied to the generator: raises `ValueError` when
`__len__` returns a negative number, otherwise yields it as a `Nat`. -/
def pyLen (n : Nat) (bs : Int) : Except PyErr Nat :=
  match lenDataGenerator n bs with
  | .error e => .error e
  | .ok B => if B < 0 then .error .valueError else .ok B.toNat

/-- Normalization of one slice endpoint by Python slicing rules (step 1):
a negative endpoint counts from the end, then the endpoint is clamped
into `[0, length]`. -/
def sliceBound (length : Nat) (i : Int) : Nat :=
  (min (if i < 0 then i + length else i) (length : Int)).toNat

/-- Python list slicing `l[a:b]` (step 1). -/
def pySlice {α : Type} (l : List α) (a b : Int) : List α :=
  (l.drop (sliceBound l.length a)).take (sliceBound l.length b - sliceBound l.length a)

/-- Python list indexing `l[i]` with an `int` subscript: a negative index
counts from the end; an index out of range raises `IndexError`. -/
def pyGetElem {α : Type} (l : List α) (i : Int) : Except PyErr α :=
  let j : Int := if i < 0 then i + l.length else i
  if h : 0 ≤ j ∧ j < (l.length : Int) then .ok (l.get ⟨j.toNat, by omega⟩)
  else .error .indexError

/-- The index pool built by `_set_indices`:
`np.random.permutation(num_instances).tolist()` when shuffling (the drawn
permutation is the explicit parameter `perm`), else
`list(range(num_instances))`. -/
def indexPool (shuffle : Bool) (n : Nat) (perm : List Nat) : List Nat :=
  if shuffle then perm else List.range n

/-- The partition table built by `DataGenerator._set_indices`: for each
`i in range(len(self))` the chunk `index_pool[batch_size * i : batch_size * (i + 1)]`.
`len(self)` can raise (zero or negative `batch_size`), which propagates. -/
def setIndicesList (n : Nat) (bs : Int) (shuffle : Bool) (perm : List Nat) :
    Except PyErr (List (List Nat)) :=
  match pyLen n bs with
  | .error e => .error e
  | .ok B => .ok ((List.range B).map fun i : Nat =>
      pySlice (indexPool shuffle n perm) (bs * (i : Int)) (bs * ((i : Int) + 1)))

/-- State of a `DataGenerator`: `len(self._data_pack)`, `self._batch_size`,
`self._shuffle` and `self._batch_indices`. -/
structure DataGenerator where
  nInstances : Nat
  batchSize : Int
  shuffle : Bool
  batchIndices : List (List Nat)
deriving DecidableEq, Repr

/-- `DataGenerator._set_indices` as a state transformer (it reassigns
`self._batch_indices`). -/
def DataGenerator.setIndices (g : DataGenerator) (perm : List Nat) :
    Except PyErr DataGenerator :=
  match setIndicesList g.nInstances g.batchSize g.shuffle perm with
  | .error e => .error e
  | .ok bi => .ok { g with batchIndices := bi }

/-- `DataGenerator.__init__`: store the fields (with `_batch_indices`
still unset, modelled `[]`), then run `_set_indices`. -/
def DataGenerator.init (n : Nat) (bs : Int) (shuffle : Bool) (perm : List Nat) :
    Except PyErr DataGenerator :=
  DataGenerator.setIndices ⟨n, bs, shuffle, []⟩ perm

/-- `DataGenerator.on_epoch_end`: re-runs `_set_indices`. -/
def DataGenerator.onEpochEnd (g : DataGenerator) (perm : List Nat) :
    Except PyErr DataGenerator :=
  g.setIndices perm

/-- `DataGenerator.reset`: re-runs `_set_indices`. -/
def DataGenerator.reset (g : DataGenerator) (perm : List Nat) :
    Except PyErr DataGenerator :=
  g.setIndices perm

/-- The argument of `DataGenerator.__getitem__`: an `int` or a slice
(`start:stop`, step 1). -/
inductive ItemArg where
  | int (i : Int)
  | slice (start stop : Int)
deriving DecidableEq, Repr

/-- The index-list resolution inside `DataGenerator.__getitem__`:
`sum(self._batch_indices[item], [])` for a slice (Python `sum` with a
list start is a left fold of concatenation), `self._batch_indices[item]`
for an `int`. -/
def DataGenerator.getItemIndices (g : DataGenerator) : ItemArg → Except PyErr (List Nat)
  | .slice a b => .ok ((pySlice g.batchIndices a b).foldl (· ++ ·) [])
  | .int i => pyGetElem g.batchIndices i

/-- `DataGenerator.__getitem__`: resolve the argument to an index list and
hand it to `self._get_batch_of_transformed_samples` (the materializer,
opaque here). -/
def DataGenerator.getItem {R : Type} (g : DataGenerator) (materialize : List Nat → R)
    (arg : ItemArg) : Except PyErr R :=
  match g.getItemIndices arg with
  | .error e => .error e
  | .ok indices => .ok (materialize indices)

/-- `__getitem__` as a state transformer: its body contains no assignment
to `self`, so the generator state comes back unchanged. -/
def DataGenerator.getItemOp {R : Type} (g : DataGenerator) (materialize : List Nat → R)
    (arg : ItemArg) : Except PyErr R × DataGenerator :=
  (g.getItem materialize arg, g)

/-- Normal form of `_set_indices` for `batch_size ≥ 1` (the only regime in
which construction succeeds with a nonempty table): `ceilDiv n bs` chunks
of `bs` consecutive pool entries. Connected to `setIndicesList` by
`setIndicesList_pos` below. -/
def setIndicesNat (n bs : Nat) (pool : List Nat) : List (List Nat) :=
  (List.range (ceilDiv n bs)).map fun i => (pool.drop (bs * i)).take bs

/-- The two text columns of a data pack that the dynamic materializers
touch: `left['text_left']` and `right['text_right']`. Everything else
about the data pack is opaque (external collaborator). -/
structure DataPack (T : Type) where
  textLeft : List T
  textRight : List T
deriving DecidableEq, Repr

/-- `DataPack.copy()`: yields an independent pack with the same contents;
in the state-passing model a record update of the copy never touches the
original, which is exactly Python's behaviour after `.copy()`. -/
def DataPack.copy {T : Type} (dp : DataPack T) : DataPack T := dp

/-- State of a generator variant that holds a data pack. -/
structure PackGenerator (T : Type) where
  dataPack : DataPack T
  batchIndices : List (List Nat)

/-- `UnitDynamicDataGenerator._get_batch_of_transformed_samples`:
`dp = self._data_pack[indices].copy()`, map `self._unit.transform` over
`dp.left['text_left']` and `dp.right['text_right']`, then `dp.unpack()`.
Slicing (`sliceFn`), the transform and `unpack` are opaque collaborators. -/
def UnitDynamicDataGenerator.getBatchOfTransformedSamples {T R : Type}
    (sliceFn : DataPack T → List Nat → DataPack T) (transform : T → T)
    (unpack : DataPack T → R) (g : PackGenerator T) (indices : List Nat) :
    R × PackGenerator T :=
  let dp := (sliceFn g.dataPack indices).copy
  let dp1 := { dp with textLeft := dp.textLeft.map transform }
  let dp2 := { dp1 with textRight := dp1.textRight.map transform }
  (unpack dp2, g)

/-- `DynamicDataGenerator._get_batch_of_transformed_samples`: same body
with the transform supplied directly as `self._func`. -/
def DynamicDataGenerator.getBatchOfTransformedSamples {T R : Type}
    (sliceFn : DataPack T → List Nat → DataPack T) (func : T → T)
    (unpack : DataPack T → R) (g : PackGenerator T) (indices : List Nat) :
    R × PackGenerator T :=
  let dp := (sliceFn g.dataPack indices).copy
  let dp1 := { dp with textLeft := dp.textLeft.map func }
  let dp2 := { dp1 with textRight := dp1.textRight.map func }
  (unpack dp2, g)

/-- `DataGeneratorFusion._get_batch_of_transformed_samples`:
`dp = self._data_pack[indices].copy()`, map `self._unit.transform` over
both text columns, then `upsample(dp, num_dup, num_neg).unpack()`. -/
def DataGeneratorFusion.getBatchOfTransformedSamples {T R : Type}
    (sliceFn : DataPack T → List Nat → DataPack T) (transform : T → T)
    (upsample : DataPack T → Nat → Nat → DataPack T) (unpack : DataPack T → R)
    (numDup numNeg : Nat) (g : PackGenerator T) (indices : List Nat) :
    R × PackGenerator T :=
  let dp := (sliceFn g.dataPack indices).copy
  let dp1 := { dp with textLeft := dp.textLeft.map transform }
  let dp2 := { dp1 with textRight := dp1.textRight.map transform }
  (unpack (upsample dp2 numDup numNeg), g)

/-- Applying a transform to every left-side and every right-side text
field of a pack, as the spec words it. -/
def applyUnitTransform {T : Type} (transform : T → T) (dp : DataPack T) : DataPack T :=
  { textLeft := dp.textLeft.map transform, textRight := dp.textRight.map transform }

/-- The Fusion materialization in the spec's stated order: slice the
dataset, apply the transform to every left-side and right-side text field
of the slice, only then invoke the upsampling collaborator on the
transformed slice, then unpack. Compared with the source-derived
`DataGeneratorFusion.getBatchOfTransformedSamples` in theorem `c8`. -/
def fusionSpecMaterialize {T R : Type}
    (sliceFn : DataPack T → List Nat → DataPack T) (transform : T → T)
    (upsample : DataPack T → Nat → Nat → DataPack T) (unpack : DataPack T → R)
    (numDup numNeg : Nat) (dataPack : DataPack T) (indices : List Nat) : R :=
  unpack (upsample (applyUnitTransform transform (sliceFn dataPack indices)) numDup numNeg)

/-! ### Arithmetic facts about ceiling division -/

lemma le_mul_ceilDiv (n bs : Nat) (hbs : 1 ≤ bs) : n ≤ bs * ceilDiv n bs := by
  unfold ceilDiv
  have hdm := Nat.div_add_mod (n + bs - 1) bs
  have hlt := Nat.mod_lt (n + bs - 1) (by omega : 0 < bs)
  omega

lemma mul_ceilDiv_lt (n bs : Nat) (hbs : 1 ≤ bs) : bs * ceilDiv n bs < n + bs := by
  unfold ceilDiv
  have hdm := Nat.div_add_mod (n + bs - 1) bs
  omega

lemma mul_lt_of_lt_ceilDiv {n bs i : Nat} (hbs : 1 ≤ bs) (hi : i < ceilDiv n bs) :
    bs * i < n := by
  have h1 := mul_ceilDiv_lt n bs hbs
  have h2 : bs * (i + 1) ≤ bs * ceilDiv n bs := Nat.mul_le_mul_left bs hi
  have h3 : bs * (i + 1) = bs * i + bs := by ring
  omega

lemma ceilDiv_eq_zero (bs : Nat) (hbs : 1 ≤ bs) : ceilDiv 0 bs = 0 := by
  unfold ceilDiv
  exact Nat.div_eq_of_lt (by omega)

/-- The embedded `math.ceil(n / bs)` agrees with `Nat` ceiling division on
positive batch sizes. -/
lemma mathCeilDiv_natCast (n bs : Nat) (hbs : 1 ≤ bs) :
    mathCeilDiv n (bs : Int) = (ceilDiv n bs : Int) := by
  obtain ⟨j, rfl⟩ : ∃ j, bs = j + 1 := ⟨bs - 1, by omega⟩
  cases n with
  | zero =>
    have h0 : mathCeilDiv 0 ((j + 1 : Nat) : Int) = 0 := rfl
    rw [h0, ceilDiv_eq_zero _ hbs]
    rfl
  | succ k =>
    have hL : mathCeilDiv (k + 1) ((j + 1 : Nat) : Int) = (k / (j + 1) : Nat) + 1 := by
      show -(Int.fdiv (-((k + 1 : Nat) : Int)) ((j + 1 : Nat) : Int)) = _
      have h1 : -((k + 1 : Nat) : Int) = Int.negSucc k := rfl
      have h2 : ((j + 1 : Nat) : Int) = Int.ofNat (j + 1) := rfl
      rw [h1, h2]
      have h3 : Int.fdiv (Int.negSucc k) (Int.ofNat (j + 1)) = Int.negSucc (k / (j + 1)) := rfl
      rw [h3, Int.negSucc_eq]
      ring
    have hR : ceilDiv (k + 1) (j + 1) = k / (j + 1) + 1 := by
      unfold ceilDiv
      have : k + 1 + (j + 1) - 1 = k + (j + 1) := by omega
      rw [this, Nat.add_div_right _ (by omega)]
    rw [hL, hR]
    push_cast
    ring

/-- `len(generator)` with a positive batch size: no exception, value
`⌈n / bs⌉`. -/
lemma pyLen_pos (n bs : Nat) (hbs : 1 ≤ bs) :
    pyLen n (bs : Int) = .ok (ceilDiv n bs) := by
  have h0 : ¬ ((bs : Int) = 0) := by omega
  have h1 : ¬ (((ceilDiv n bs : Nat) : Int) < 0) := by omega
  simp only [pyLen, lenDataGenerator, if_neg h0, mathCeilDiv_natCast n bs hbs, if_neg h1]
  simp

/-! ### Facts about the Python slicing and indexing embedding -/

lemma sliceBound_natCast (len a : Nat) : sliceBound len (a : Int) = min a len := by
  unfold sliceBound
  rw [if_neg (by omega : ¬ ((a : Int) < 0))]
  omega

lemma sliceBound_le (len : Nat) (i : Int) : sliceBound len i ≤ len := by
  unfold sliceBound
  split <;> omega

lemma drop_min_length {α : Type} (l : List α) (a : Nat) :
    l.drop (min a l.length) = l.drop a := by
  rcases le_total a l.length with h | h
  · rw [min_eq_left h]
  · rw [min_eq_right h, List.drop_eq_nil_of_le h, List.drop_eq_nil_of_le le_rfl]

/-- Python slicing at nonnegative `Nat` endpoints is drop-then-take. -/
lemma pySlice_natCast {α : Type} (l : List α) (a b : Nat) :
    pySlice l (a : Int) (b : Int) = (l.drop a).take (b - a) := by
  unfold pySlice
  rw [sliceBound_natCast, sliceBound_natCast, drop_min_length]
  rw [List.take_eq_take]
  simp only [List.length_drop]
  omega

lemma foldl_append_eq_flatten {α : Type} (ls : List (List α)) (acc : List α) :
    ls.foldl (· ++ ·) acc = acc ++ ls.flatten := by
  induction ls generalizing acc with
  | nil => simp
  | cons x xs ih => simp [ih, List.append_assoc]

lemma pyGetElem_error_iff {α : Type} (l : List α) (i : Int) :
    (pyGetElem l i = .error .indexError ↔
      (i < -(l.length : Int) ∨ (l.length : Int) ≤ i)) := by
  unfold pyGetElem
  dsimp only
  by_cases hneg : i < 0
  · simp only [hneg, if_true]
    by_cases hin : 0 ≤ i + (l.length : Int) ∧ i + (l.length : Int) < (l.length : Int)
    · rw [dif_pos hin]
      constructor
      · intro hc
        simp at hc
      · intro hor
        exact absurd hor (by omega)
    · rw [dif_neg hin]
      constructor
      · intro _
        omega
      · intro _
        rfl
  · simp only [hneg, if_false]
    by_cases hin : 0 ≤ i ∧ i < (l.length : Int)
    · rw [dif_pos hin]
      constructor
      · intro hc
        simp at hc
      · intro hor
        exact absurd hor (by omega)
    · rw [dif_neg hin]
      constructor
      · intro _
        omega
      · intro _
        rfl

lemma pyGetElem_nonneg {α : Type} (l : List α) (i : Int) (h0 : 0 ≤ i)
    (hl : i < (l.length : Int)) :
    pyGetElem l i = .ok (l.get ⟨i.toNat, by omega⟩) := by
  unfold pyGetElem
  dsimp only
  have hneg : ¬ i < 0 := by omega
  simp only [hneg, if_false]
  rw [dif_pos ⟨h0, hl⟩]

lemma pyGetElem_neg {α : Type} (l : List α) (i : Int) (hub : i < 0)
    (hlb : -(l.length : Int) ≤ i) :
    pyGetElem l i = .ok (l.get ⟨(i + l.length).toNat, by omega⟩) := by
  unfold pyGetElem
  dsimp only
  simp only [hub, if_true]
  rw [dif_pos ⟨by omega, by omega⟩]

/-! ### The partition table -/

lemma flatten_chunks (bs : Nat) :
    ∀ (B : Nat) (pool : List Nat), pool.length ≤ bs * B →
      ((List.range B).map fun i => (pool.drop (bs * i)).take bs).flatten = pool := by
  intro B
  induction B with
  | zero =>
    intro pool h
    have : pool = [] := List.eq_nil_of_length_eq_zero (by omega)
    subst this
    simp
  | succ B ih =>
    intro pool h
    rw [List.range_succ_eq_map, List.map_cons, List.map_map, List.flatten_cons]
    have hhead : (pool.drop (bs * 0)).take bs = pool.take bs := by
      rw [Nat.mul_zero, List.drop_zero]
    have htail : ((fun i => (pool.drop (bs * i)).take bs) ∘ Nat.succ) =
        fun i => (((pool.drop bs).drop (bs * i)).take bs) := by
      funext i
      show (pool.drop (bs * (i + 1))).take bs = _
      rw [List.drop_drop]
      congr 2
      ring
    rw [hhead, htail, ih (pool.drop bs) (by
      simp only [List.length_drop]
      have : bs * (B + 1) = bs * B + bs := by ring
      omega)]
    exact List.take_append_drop bs pool

lemma setIndicesNat_flatten (n bs : Nat) (pool : List Nat) (hbs : 1 ≤ bs)
    (hlen : pool.length = n) : (setIndicesNat n bs pool).flatten = pool := by
  unfold setIndicesNat
  exact flatten_chunks bs (ceilDiv n bs) pool (hlen ▸ le_mul_ceilDiv n bs hbs)

/-- With a positive batch size, `_set_indices` succeeds and produces the
normal-form table. -/
lemma setIndicesList_pos (n bs : Nat) (sh : Bool) (perm : List Nat) (hbs : 1 ≤ bs) :
    setIndicesList n (bs : Int) sh perm = .ok (setIndicesNat n bs (indexPool sh n perm)) := by
  simp only [setIndicesList, pyLen_pos n bs hbs]
  unfold setIndicesNat
  congr 1
  apply List.map_congr_left
  intro i _
  have hcast1 : (bs : Int) * (i : Int) = ((bs * i : Nat) : Int) := by push_cast; ring
  have hcast2 : (bs : Int) * ((i : Int) + 1) = ((bs * (i + 1) : Nat) : Int) := by
    push_cast; ring
  rw [hcast1, hcast2, pySlice_natCast]
  congr 1
  have : bs * (i + 1) = bs * i + bs := by ring
  omega

lemma range_drop_take (n a k : Nat) :
    ((List.range n).drop a).take k = List.range' a (min k (n - a)) := by
  apply List.ext_getElem
  · simp only [List.length_take, List.length_drop, List.length_range, List.length_range']
  · intro i h1 h2
    simp only [List.getElem_take, List.getElem_drop, List.getElem_range, List.getElem_range']
    omega

/-- A Python slice of `l` is the per-position read-out of the referenced
positions, in position order. -/
lemma pySlice_eq_map_getElem {α : Type} [Inhabited α] (l : List α) (a b : Int) :
    pySlice l a b = (List.range' (sliceBound l.length a)
      (max (sliceBound l.length b) (sliceBound l.length a) - sliceBound l.length a)).map
        fun j => l[j]! := by
  have hlo := sliceBound_le l.length a
  have hhi := sliceBound_le l.length b
  apply List.ext_getElem
  · simp only [pySlice, List.length_take, List.length_drop, List.length_map,
      List.length_range']
    omega
  · intro i h1 h2
    simp only [pySlice, List.length_take, List.length_drop] at h1
    simp only [List.length_map, List.length_range'] at h2
    have hb2 : sliceBound l.length a + i < l.length := by omega
    simp only [pySlice, List.getElem_take, List.getElem_drop, List.getElem_map,
      List.getElem_range', one_mul]
    exact (getElem!_pos l _ hb2).symm

/-- Unfolding of the constructor: the stored fields plus the freshly built
partition table (or the propagated exception). -/
lemma init_eq (n : Nat) (bs : Int) (sh : Bool) (perm : List Nat) :
    DataGenerator.init n bs sh perm =
      match setIndicesList n bs sh perm with
      | .error e => .error e
      | .ok bi => .ok ⟨n, bs, sh, bi⟩ := by
  rcases h : setIndicesList n bs sh perm with e | bi <;>
    simp [DataGenerator.init, DataGenerator.setIndices, h]

lemma mathCeilDiv_negSucc (n j : Nat) :
    mathCeilDiv n (Int.negSucc j) = -((n / (j + 1) : Nat) : Int) := by
  cases n with
  | zero =>
    rw [Nat.zero_div]
    rfl
  | succ k => rfl

/-- `len(generator)` with a negative batch size: `ValueError` as soon as
`⌈n / bs⌉` is negative, otherwise the batch count is zero. -/
lemma pyLen_negSucc (n j : Nat) :
    pyLen n (Int.negSucc j) =
      if 1 ≤ n / (j + 1) then .error .valueError else .ok 0 := by
  have hne : Int.negSucc j ≠ 0 := by
    rw [Int.negSucc_eq]
    omega
  simp only [pyLen, lenDataGenerator, if_neg hne, mathCeilDiv_negSucc]
  by_cases hd : 1 ≤ n / (j + 1)
  · have hcond : -((n / (j + 1) : Nat) : Int) < 0 := by
      generalize hgen : n / (j + 1) = d at hd ⊢
      omega
    rw [if_pos hcond, if_pos hd]
  · have h0 : n / (j + 1) = 0 := Nat.eq_zero_of_not_pos hd
    rw [h0]
    rfl

/-- C1: for every dataset size `N ≥ 0` and `batch_size ≥ 1`, after any
(re)partition — construction, `on_epoch_end`, or `reset` — concatenating
the index lists of all batches of the partition table, in table order,
yields a permutation of `[0, N)` containing each index exactly once. -/
theorem c1_partition_is_permutation (n bs : Nat) (sh : Bool) (perm : List Nat)
    (g g0 : DataGenerator) (hbs : 1 ≤ bs) (hperm : perm.Perm (List.range n))
    (hg : DataGenerator.init n (bs : Int) sh perm = .ok g ∨
      (g0.nInstances = n ∧ g0.batchSize = (bs : Int) ∧
        (g0.onEpochEnd perm = .ok g ∨ g0.reset perm = .ok g))) :
    g.batchIndices.flatten.Perm (List.range n) ∧
    ∀ idx < n, g.batchIndices.flatten.count idx = 1 := by
  suffices h : ∃ sh', g.batchIndices = setIndicesNat n bs (indexPool sh' n perm) by
    obtain ⟨sh', hbi⟩ := h
    have hpool : (indexPool sh' n perm).Perm (List.range n) := by
      unfold indexPool
      split
      · exact hperm
      · exact List.Perm.refl _
    have hlen : (indexPool sh' n perm).length = n := by
      have := hpool.length_eq
      simpa using this
    have hfl : g.batchIndices.flatten = indexPool sh' n perm := by
      rw [hbi]
      exact setIndicesNat_flatten n bs _ hbs hlen
    refine ⟨hfl ▸ hpool, ?_⟩
    intro idx hidx
    rw [hfl, hpool.count_eq]
    exact List.count_eq_one_of_mem (List.nodup_range n) (List.mem_range.mpr hidx)
  rcases hg with h | ⟨hn, hbs', h⟩
  · refine ⟨sh, ?_⟩
    rw [init_eq, setIndicesList_pos n bs sh perm hbs] at h
    have := Except.ok.inj h
    rw [← this]
  · refine ⟨g0.shuffle, ?_⟩
    have h' : g0.setIndices perm = .ok g := by
      rcases h with h | h
      · exact h
      · exact h
    unfold DataGenerator.setIndices at h'
    rw [hn, hbs', setIndicesList_pos n bs g0.shuffle perm hbs] at h'
    simp only at h'
    have := Except.ok.inj h'
    rw [← this]

/-- Witness for C1 at `N = 5`, `batch_size = 2`, a shuffled pool
`[4,0,3,1,2]`: the table `[[4,0],[3,1],[2]]` flattens to a permutation of
`[0, 5)` and contains the index `3` exactly once. -/
theorem c1_partition_is_permutation_witness :
    (DataGenerator.mk 5 2 true [[4,0],[3,1],[2]]).batchIndices.flatten.Perm (List.range 5) ∧
    (DataGenerator.mk 5 2 true [[4,0],[3,1],[2]]).batchIndices.flatten.count 3 = 1 := by
  have h := c1_partition_is_permutation 5 2 true [4,0,3,1,2]
    (DataGenerator.mk 5 2 true [[4,0],[3,1],[2]]) (DataGenerator.mk 5 2 true [])
    (by decide) (by decide) (Or.inl rfl)
  exact ⟨h.1, h.2 3 (by decide)⟩

/-- C2: for every `N ≥ 0` and `batch_size ≥ 1`, `__len__` returns
`⌈N / batch_size⌉` (no exception), which equals the number of entries of
the partition table `_set_indices` builds; `N = 0` gives length `0`. -/
theorem c2_length_is_ceil (n bs : Nat) (sh : Bool) (perm : List Nat)
    (bi : List (List Nat)) (hbs : 1 ≤ bs)
    (hbi : setIndicesList n (bs : Int) sh perm = .ok bi) :
    pyLen n (bs : Int) = .ok (ceilDiv n bs) ∧ bi.length = ceilDiv n bs ∧
    (n = 0 → ceilDiv n bs = 0) := by
  refine ⟨pyLen_pos n bs hbs, ?_, ?_⟩
  · rw [setIndicesList_pos n bs sh perm hbs] at hbi
    rw [← Except.ok.inj hbi]
    simp [setIndicesNat]
  · intro h
    subst h
    exact ceilDiv_eq_zero bs hbs

/-- Witness for C2 at `N = 10`, `batch_size = 3`. -/
theorem c2_length_is_ceil_witness :
    pyLen 10 ((3 : Nat) : Int) = .ok (ceilDiv 10 3) ∧
    ([[0,1,2],[3,4,5],[6,7,8],[9]] : List (List Nat)).length = ceilDiv 10 3 ∧
    (10 = 0 → ceilDiv 10 3 = 0) :=
  c2_length_is_ceil 10 3 false [] [[0,1,2],[3,4,5],[6,7,8],[9]] (by decide) rfl

/-- C3: with `shuffle = false` the concatenation of all batch index lists
is exactly `[0, ..., N-1]`, batch `i` is the consecutive range
`[i*batch_size, min((i+1)*batch_size, N))`, and concretely `N = 10`,
`batch_size = 3` gives four batches `[0,1,2], [3,4,5], [6,7,8], [9]`. -/
theorem c3_no_shuffle_ranges (n bs : Nat) (perm : List Nat) (bi : List (List Nat))
    (hbs : 1 ≤ bs) (hbi : setIndicesList n (bs : Int) false perm = .ok bi) :
    bi.flatten = List.range n ∧
    (∀ i, i < bi.length →
      bi[i]! = List.range' (i * bs) (min ((i + 1) * bs) n - i * bs)) ∧
    (DataGenerator.init 10 3 false [] =
      .ok ⟨10, 3, false, [[0,1,2],[3,4,5],[6,7,8],[9]]⟩) := by
  rw [setIndicesList_pos n bs false perm hbs] at hbi
  have hbi' := (Except.ok.inj hbi).symm
  have hpool : indexPool false n perm = List.range n := rfl
  rw [hpool] at hbi'
  subst hbi'
  have hlen : (setIndicesNat n bs (List.range n)).length = ceilDiv n bs := by
    simp [setIndicesNat]
  refine ⟨setIndicesNat_flatten n bs _ hbs (List.length_range n), ?_, rfl⟩
  intro i hi
  rw [getElem!_pos (setIndicesNat n bs (List.range n)) i hi]
  rw [hlen] at hi
  unfold setIndicesNat
  rw [List.getElem_map, List.getElem_range, range_drop_take]
  have hlt : bs * i < n := mul_lt_of_lt_ceilDiv hbs hi
  have ha : bs * i = i * bs := Nat.mul_comm bs i
  have hb : (i + 1) * bs = bs * i + bs := by ring
  rw [← ha]
  congr 1
  omega

/-- Witness for C3 at `N = 10`, `batch_size = 3`. -/
theorem c3_no_shuffle_ranges_witness :
    ([[0,1,2],[3,4,5],[6,7,8],[9]] : List (List Nat)).flatten = List.range 10 ∧
    ([[0,1,2],[3,4,5],[6,7,8],[9]] : List (List Nat))[3]! =
      List.range' (3 * 3) (min ((3 + 1) * 3) 10 - 3 * 3) := by
  have h := c3_no_shuffle_ranges 10 3 [] [[0,1,2],[3,4,5],[6,7,8],[9]] (by decide) rfl
  exact ⟨h.1, h.2.1 3 (by decide)⟩

/-- C4: a slice-argument batch request concatenates the index lists of all
referenced partition-table positions, in table order, and materializes one
combined batch from that list; each referenced position contributes
exactly the index list a single request at that position would use. -/
theorem c4_slice_request_concatenates (g : DataGenerator) (a b : Int) {R : Type}
    (materialize : List Nat → R) :
    g.getItem materialize (.slice a b) =
      .ok (materialize ((List.range' (sliceBound g.batchIndices.length a)
        (max (sliceBound g.batchIndices.length b) (sliceBound g.batchIndices.length a) -
          sliceBound g.batchIndices.length a)).map fun j => g.batchIndices[j]!).flatten) ∧
    ∀ j : Nat, sliceBound g.batchIndices.length a ≤ j →
      j < max (sliceBound g.batchIndices.length b) (sliceBound g.batchIndices.length a) →
      g.getItemIndices (.int (j : Int)) = .ok (g.batchIndices[j]!) := by
  constructor
  · simp only [DataGenerator.getItem, DataGenerator.getItemIndices,
      foldl_append_eq_flatten, List.nil_append, pySlice_eq_map_getElem]
  · intro j hj1 hj2
    have hsb := sliceBound_le g.batchIndices.length b
    have hsa := sliceBound_le g.batchIndices.length a
    have hjlen : j < g.batchIndices.length := by omega
    show pyGetElem g.batchIndices (j : Int) = _
    rw [pyGetElem_nonneg g.batchIndices (j : Int) (by omega) (by omega)]
    congr 1
    rw [getElem!_pos g.batchIndices j hjlen]
    simp [List.get_eq_getElem]

/-- Witness for C4: requesting positions `1:3` of the `N = 10`,
`batch_size = 3` table yields the single combined batch `[3,4,5,6,7,8]`. -/
theorem c4_slice_request_concatenates_witness :
    (⟨10, 3, false, [[0,1,2],[3,4,5],[6,7,8],[9]]⟩ : DataGenerator).getItem
      id (.slice 1 3) = .ok [3, 4, 5, 6, 7, 8] :=
  ((c4_slice_request_concatenates
    (⟨10, 3, false, [[0,1,2],[3,4,5],[6,7,8],[9]]⟩ : DataGenerator) 1 3 id).1).trans
    (by rfl)

/-- C5 counterexample: the claim says every single index outside
`[0, length())` fails with `IndexError`; but on the `N = 10`,
`batch_size = 3` generator (so `length() = 4`), the single index `-1`
(outside `[0, 4)`) succeeds and returns the last batch `[9]`. -/
theorem c5_single_index_counterexample :
    DataGenerator.init 10 3 false [] =
      .ok ⟨10, 3, false, [[0,1,2],[3,4,5],[6,7,8],[9]]⟩ ∧
    (⟨10, 3, false, [[0,1,2],[3,4,5],[6,7,8],[9]]⟩ : DataGenerator).getItemIndices
      (.int (-1)) = .ok [9] ∧
    ¬ (0 ≤ (-1 : Int) ∧ (-1 : Int) < 4) :=
  ⟨rfl, rfl, by omega⟩

/-- C5 amended: a single-index request fails — always with `IndexError` —
exactly when the index is `< -length()` or `≥ length()` (Python negative
indices count from the end); in particular on an empty partition table
(`N = 0`) every single-index request fails with `IndexError`. -/
theorem c5_single_index_error_iff (g : DataGenerator) (i : Int) :
    (g.getItemIndices (.int i) = .error .indexError ↔
      (i < -(g.batchIndices.length : Int) ∨ (g.batchIndices.length : Int) ≤ i)) ∧
    (g.batchIndices = [] → g.getItemIndices (.int i) = .error .indexError) := by
  constructor
  · exact pyGetElem_error_iff g.batchIndices i
  · intro h
    apply (pyGetElem_error_iff g.batchIndices i).mpr
    rw [h]
    simp only [List.length_nil]
    omega

/-- Witness for C5 (amended), Scenario B: `N = 0`, `batch_size = 5` gives an
empty table and `getBatch(0)` raises `IndexError`. -/
theorem c5_single_index_error_iff_witness :
    (⟨0, 5, false, []⟩ : DataGenerator).getItemIndices (.int 0) =
      .error .indexError :=
  (c5_single_index_error_iff (⟨0, 5, false, []⟩ : DataGenerator) 0).2 rfl

/-- C6 counterexample: the claim says `batch_size < 1` fails fast with a
`ConfigurationError` at construction or first partition; but constructing
with `batch_size = -1 < 1` over an empty data pack completes with no error
at all (an empty partition table). -/
theorem c6_batch_size_counterexample :
    DataGenerator.init 0 (-1) true [] = .ok ⟨0, -1, true, []⟩ ∧ (-1 : Int) < 1 :=
  ⟨rfl, by omega⟩

/-- C6 amended: no `ConfigurationError` exists; instead, during the first
partition (inside construction) `batch_size = 0` raises
`ZeroDivisionError`, and a negative `batch_size` raises `ValueError` (from
the `len()` builtin seeing a negative `__len__`) precisely when
`N ≥ -batch_size`, while `N < -batch_size` constructs successfully with an
empty partition table. -/
theorem c6_batch_size_behaviour (n : Nat) (bs : Int) (sh : Bool) (perm : List Nat) :
    (bs = 0 → DataGenerator.init n bs sh perm = .error .zeroDivisionError) ∧
    (bs < 0 →
      (-bs ≤ (n : Int) → DataGenerator.init n bs sh perm = .error .valueError) ∧
      ((n : Int) < -bs → DataGenerator.init n bs sh perm = .ok ⟨n, bs, sh, []⟩)) := by
  constructor
  · rintro rfl
    rfl
  · intro hneg
    obtain ⟨j, rfl⟩ := Int.eq_negSucc_of_lt_zero hneg
    have hns : Int.negSucc j = -((j : Int) + 1) := Int.negSucc_eq j
    constructor
    · intro hle
      have hj : j + 1 ≤ n := by omega
      have hd : 1 ≤ n / (j + 1) := (Nat.one_le_div_iff (by omega)).mpr hj
      rw [init_eq]
      simp only [setIndicesList, pyLen_negSucc, if_pos hd]
    · intro hlt
      have hj : n < j + 1 := by omega
      have hd : ¬ 1 ≤ n / (j + 1) := by
        rw [Nat.div_eq_of_lt hj]
        omega
      rw [init_eq]
      simp only [setIndicesList, pyLen_negSucc, if_neg hd]
      rfl

/-- Witness for C6 (amended): `batch_size = 0` raises `ZeroDivisionError`;
`N = 10`, `batch_size = -3` raises `ValueError`; `N = 2`,
`batch_size = -3` constructs with an empty table. -/
theorem c6_batch_size_behaviour_witness :
    DataGenerator.init 5 0 true [] = .error .zeroDivisionError ∧
    DataGenerator.init 10 (-3) true [] = .error .valueError ∧
    DataGenerator.init 2 (-3) true [] = .ok ⟨2, -3, true, []⟩ := by
  refine ⟨(c6_batch_size_behaviour 5 0 true []).1 rfl, ?_, ?_⟩
  · exact ((c6_batch_size_behaviour 10 (-3) true []).2 (by omega)).1 (by omega)
  · exact ((c6_batch_size_behaviour 2 (-3) true []).2 (by omega)).2 (by omega)

/-- C7: for a valid batch position, `__getitem__` performs no state change,
so two consecutive calls with no intervening re-partition resolve to the
same index list. -/
theorem c7_getitem_idempotent (g : DataGenerator) {R : Type}
    (materialize : List Nat → R) (i : Int) (h0 : 0 ≤ i)
    (hB : i < (g.batchIndices.length : Int)) :
    (g.getItemOp materialize (.int i)).2 = g ∧
    g.getItemIndices (.int i) = .ok (g.batchIndices.get ⟨i.toNat, by omega⟩) ∧
    (g.getItemOp materialize (.int i)).2.getItemIndices (.int i) =
      .ok (g.batchIndices.get ⟨i.toNat, by omega⟩) := by
  refine ⟨rfl, ?_, ?_⟩ <;> exact pyGetElem_nonneg g.batchIndices i h0 hB

/-- Witness for C7 at batch position `1` of the `N = 10`, `batch_size = 3`
table: both calls return `[3,4,5]` and the state is unchanged. -/
theorem c7_getitem_idempotent_witness :
    ((⟨10, 3, false, [[0,1,2],[3,4,5],[6,7,8],[9]]⟩ : DataGenerator).getItemOp
      id (.int 1)).2 = ⟨10, 3, false, [[0,1,2],[3,4,5],[6,7,8],[9]]⟩ ∧
    (⟨10, 3, false, [[0,1,2],[3,4,5],[6,7,8],[9]]⟩ : DataGenerator).getItemIndices
      (.int 1) = .ok [3, 4, 5] ∧
    ((⟨10, 3, false, [[0,1,2],[3,4,5],[6,7,8],[9]]⟩ : DataGenerator).getItemOp
      id (.int 1)).2.getItemIndices (.int 1) = .ok [3, 4, 5] := by
  have h := c7_getitem_idempotent
    (⟨10, 3, false, [[0,1,2],[3,4,5],[6,7,8],[9]]⟩ : DataGenerator) id 1
    (by omega) (by decide)
  exact ⟨h.1, h.2.1.trans rfl, h.2.2.trans rfl⟩

/-- C8: the Fusion materializer slices, applies the transform to every
left-side and right-side text field, and only then hands the transformed
slice to the upsampling collaborator before unpacking — transform strictly
before upsample, for every choice of the opaque collaborators. -/
theorem c8_fusion_transform_before_upsample {T R : Type}
    (sliceFn : DataPack T → List Nat → DataPack T) (transform : T → T)
    (upsample : DataPack T → Nat → Nat → DataPack T) (unpack : DataPack T → R)
    (numDup numNeg : Nat) (g : PackGenerator T) (indices : List Nat) :
    (DataGeneratorFusion.getBatchOfTransformedSamples sliceFn transform upsample
        unpack numDup numNeg g indices).1 =
      fusionSpecMaterialize sliceFn transform upsample unpack numDup numNeg
        g.dataPack indices :=
  rfl

/-- C9: the transforming materializer variants work on a per-call copy of
the sliced instances only: the generator state (in particular the shared
data pack) is unchanged by any such call, and the result is computed from
the transformed copy. -/
theorem c9_materializers_do_not_mutate {T R : Type}
    (sliceFn : DataPack T → List Nat → DataPack T) (transform func : T → T)
    (unpack : DataPack T → R) (g : PackGenerator T) (indices : List Nat) :
    (UnitDynamicDataGenerator.getBatchOfTransformedSamples sliceFn transform
        unpack g indices).2.dataPack = g.dataPack ∧
    (DynamicDataGenerator.getBatchOfTransformedSamples sliceFn func
        unpack g indices).2.dataPack = g.dataPack ∧
    (UnitDynamicDataGenerator.getBatchOfTransformedSamples sliceFn transform
        unpack g indices).1 =
      unpack (applyUnitTransform transform ((sliceFn g.dataPack indices).copy)) ∧
    (DynamicDataGenerator.getBatchOfTransformedSamples sliceFn func
        unpack g indices).1 =
      unpack (applyUnitTransform func ((sliceFn g.dataPack indices).copy)) :=
  ⟨rfl, rfl, rfl, rfl⟩

/-- C10: with `B = length() ≥ 1` batches, every single index
`-B ≤ i ≤ -1` resolves (no exception) to the index list of batch position
`B + i`, and a single index raises the out-of-range `IndexError` exactly
when `i < -B` or `i ≥ B`. -/
theorem c10_negative_single_index (g : DataGenerator) (i : Int)
    (hB : 1 ≤ g.batchIndices.length) (hlb : -(g.batchIndices.length : Int) ≤ i)
    (hub : i ≤ -1) :
    g.getItemIndices (.int i) =
      .ok (g.batchIndices[(i + (g.batchIndices.length : Int)).toNat]!) ∧
    ∀ j : Int, (g.getItemIndices (.int j) = .error .indexError ↔
      (j < -(g.batchIndices.length : Int) ∨ (g.batchIndices.length : Int) ≤ j)) := by
  constructor
  · show pyGetElem g.batchIndices i = _
    rw [pyGetElem_neg g.batchIndices i (by omega) hlb]
    congr 1
    rw [getElem!_pos g.batchIndices _ (by omega)]
    simp [List.get_eq_getElem]
  · intro j
    exact pyGetElem_error_iff g.batchIndices j

/-- Witness for C10: index `-1` on the `N = 10`, `batch_size = 3` table
(`B = 4`) resolves to batch position `3`, the list `[9]`. -/
theorem c10_negative_single_index_witness :
    (⟨10, 3, false, [[0,1,2],[3,4,5],[6,7,8],[9]]⟩ : DataGenerator).getItemIndices
      (.int (-1)) = .ok [9] :=
  ((c10_negative_single_index
    (⟨10, 3, false, [[0,1,2],[3,4,5],[6,7,8],[9]]⟩ : DataGenerator) (-1)
    (by decide) (by decide) (by decide)).1).trans (by rfl)

end MatchZoo
